import Mathlib

/-!
Verification of the page-load timing profiler (`src/profiler.js`).

Shallow embedding of the profiler in `src/profiler.js`.  The JavaScript
program reads the browser's `performance.timing` object, converts absolute
timestamps into offsets relative to `navigationStart`, buckets events into
three chart sections (network / server / browser), pairs `...Start` /
`...End` milestones into labeled intervals and emits one output record per
pair.

Modelling conventions:
* The timing source (`performance.timing`) is a finite association list
  `List (String × Nat)` from field names to raw timestamps.  Per the
  Navigation Timing specification these fields are unsigned integers
  (`DOMTimeStamp`), so raw values are `Nat`; computed offsets are `Int`
  because the code subtracts the origin without a guard.
* A missing `window.performance` is modelled by passing `none` to
  `getData`, mirroring `if (!window.performance) { return; }`.
* JavaScript `TypeError`s thrown by reading a property of `undefined` are
  modelled with `Except String`; the error string records the access that
  throws.
* `Array.prototype.sort` with the numeric comparator is modelled by
  `List.insertionSort` on the same key: the observable data (the set of
  sorted names, the first element, the last element) agree for any
  comparison sort.
* The source pushes onto a `skipEvents` array (line 198) that is never
  read afterwards, and stores `item.label` / `item.timeEnd` back into the
  event object although later iterations never read those two fields; this
  dead state is omitted from the model.
-/

namespace Profiler

/-- The event catalog (`__Profiler.prototype.eventsOrder`), kept verbatim
from the source, including the duplicated `redirectStart` entry. -/
def eventsOrder : List String :=
  ["navigationStart", "redirectStart", "redirectStart",
   "redirectEnd", "fetchStart", "domainLookupStart",
   "domainLookupEnd", "connectStart", "secureConnectionStart",
   "connectEnd", "requestStart", "responseStart", "responseEnd",
   "unloadEventStart", "unloadEventEnd", "domLoading",
   "domInteractive", "msFirstPaint", "domContentLoadedEventStart",
   "domContentLoadedEventEnd", "domContentLoaded", "domComplete",
   "loadEventStart", "loadEventEnd"]

/-- One entry of `this.timingData`: the offset stored by `_getData` plus the
`sectionIndex` tag added by `_matchEventsWithSections`. -/
structure EventData where
  time : Int
  sectionIndex : Option Nat := none
  deriving Repr, DecidableEq

/-- The captured events mapping (`this.timingData`), an object keyed by
event name. -/
abbrev Store := List (String × EventData)

/-- One chart section object as built by `_getSections`. -/
structure SectionInfo where
  name : String
  color : List Nat
  firstEventIndex : Nat
  lastEventIndex : Nat
  startTime : Int
  endTime : Int
  deriving Repr, DecidableEq

/-- The `options` object assembled for every emitted interval
(lines 201-206 of the source). -/
structure OutputRecord where
  color : List Nat
  sectionTimeBounds : Int × Int
  eventTimeBounds : Int × Int
  label : String
  deriving Repr, DecidableEq

deriving instance DecidableEq for Except

/-- Model of `_getSections` (lines 50-73): three fixed sections whose index ranges
are looked up in the catalog; an environment without
`Array.prototype.indexOf` yields the empty list. -/
def getSections (hasArrayIndexOf : Bool) : List SectionInfo :=
  if hasArrayIndexOf then
    [{ name := "network", color := [224, 84, 63],
       firstEventIndex := eventsOrder.indexOf "navigationStart",
       lastEventIndex := eventsOrder.indexOf "connectEnd",
       startTime := 0, endTime := 0 },
     { name := "server", color := [255, 188, 0],
       firstEventIndex := eventsOrder.indexOf "requestStart",
       lastEventIndex := eventsOrder.indexOf "responseEnd",
       startTime := 0, endTime := 0 },
     { name := "browser", color := [16, 173, 171],
       firstEventIndex := eventsOrder.indexOf "unloadEventStart",
       lastEventIndex := eventsOrder.indexOf "loadEventEnd",
       startTime := 0, endTime := 0 }]
  else []

/-- Model of `_getData` (lines 132-162).  Input `none` models a missing
`window.performance` (the function returns `undefined`); otherwise the
timing source is iterated in key order, fields with a positive raw value
are retained with offset `rawValue - navigationStart`, and the running
maximum offset becomes `totalTime`.  The JS truthiness test
`evt && evt > 0` on an unsigned value is exactly `0 < value`, and
`timingData.navigationStart || 0` is the value when present (a present `0`
is falsy and also yields `0`). -/
def getData (perf : Option (List (String × Nat))) :
    Option (List (String × Int) × Int) :=
  match perf with
  | none => none
  | some src =>
    let startTime : Nat := (src.lookup "navigationStart").getD 0
    some (src.foldl
      (fun acc p =>
        if 0 < p.2 then
          let eventTime : Int := (p.2 : Int) - (startTime : Int)
          (acc.1 ++ [(p.1, eventTime)],
           if acc.2 < eventTime then eventTime else acc.2)
        else acc)
      ([], 0))

/-- The origin timestamp used by `_getData`:
`timingData.navigationStart || 0`. -/
def originOf (src : List (String × Nat)) : Nat :=
  (src.lookup "navigationStart").getD 0

/-- Closed form of the retained-events list built by `_getData`, with the
origin passed explicitly. -/
def eventsWith (o : Nat) (src : List (String × Nat)) : List (String × Int) :=
  (src.filter (fun p => 0 < p.2)).map (fun p => (p.1, (p.2 : Int) - (o : Int)))

/-- The events mapping computed by `_getData` on a supported source. -/
def eventsOf (src : List (String × Nat)) : List (String × Int) :=
  eventsWith (originOf src) src

/-- The `totalTime` computed by `_getData` on a supported source. -/
def totalOf (src : List (String × Nat)) : Int :=
  (eventsOf src).foldl (fun a p => if a < p.2 then p.2 else a) 0

/-- First index at which `pat` occurs as a contiguous sublist of `l`
(JavaScript `String.prototype.indexOf` on the character level), `none`
when it does not occur (JS returns `-1`). -/
def findSubAux (pat : List Char) : List Char → Option Nat
  | [] => if pat = [] then some 0 else none
  | c :: rest =>
    if pat.isPrefixOf (c :: rest) then some 0
    else (findSubAux pat rest).map (· + 1)

/-- Model of `s.indexOf(pat)` from the source, as an `Option Nat`. -/
def strIdxOf (s pat : String) : Option Nat :=
  findSubAux pat.toList s.toList

/-- Model of `evt.substr(0, n)`: the first `n` characters of `evt`. -/
def takeChars (s : String) (n : Nat) : String :=
  String.mk (s.toList.take n)

/-- The base name computed at lines 186-191: the part of the event name
before the first occurrence of `"Start"`, defined only when the name
contains `"Start"`. -/
def baseNameOf (evt : String) : Option String :=
  (strIdxOf evt "Start").map (fun i => takeChars evt i)

/-- The body of one iteration of the emission loop (lines 178-212).
`.ok none` means the iteration emits nothing (`continue`, unpairable name,
or name absent from the captured events); `.ok (some r)` means it emits
the record `r`; `.error` models the `TypeError` thrown by reading a
property of `undefined`. -/
def emitStep (data : Store) (sections : List SectionInfo) (evt : String) :
    Except String (Option OutputRecord) :=
  match data.lookup evt with
  | none => .ok none
  | some item =>
    match strIdxOf evt "Start" with
    | none => .ok none
    | some startIndex =>
      let eventName := takeChars evt startIndex
      if eventsOrder.contains (eventName ++ "End") then
        -- line 197 reads `this.timingData[eventName + 'End'].time`
        -- without checking that the End event was captured.
        match data.lookup (eventName ++ "End") with
        | none => .error "TypeError: timingData[eventName+End] is undefined"
        | some endItem =>
          -- line 200 reads `this.sections[item.sectionIndex]` and then
          -- its `.color`; an untagged event or missing section throws.
          match item.sectionIndex with
          | none => .error "TypeError: sections[item.sectionIndex] is undefined"
          | some si =>
            match sections[si]? with
            | none => .error "TypeError: sections[item.sectionIndex] is undefined"
            | some s =>
              .ok (some { color := s.color,
                          sectionTimeBounds := (s.startTime, s.endTime),
                          eventTimeBounds := (item.time, endItem.time),
                          label := eventName })
      else .ok none

/-- The emission loop of `_init` (lines 178-213), iterating the catalog in
order and collecting the emitted records. -/
def emitGo (data : Store) (sections : List SectionInfo) :
    List String → Except String (List OutputRecord)
  | [] => .ok []
  | evt :: rest =>
    match emitStep data sections evt with
    | .error e => .error e
    | .ok none => emitGo data sections rest
    | .ok (some r) =>
      match emitGo data sections rest with
      | .error e => .error e
      | .ok rs => .ok (r :: rs)

/-- The record (if any) a successful iteration of the emission loop emits
for a given catalog entry. -/
def emitOne (data : Store) (sections : List SectionInfo) (evt : String) :
    Option OutputRecord :=
  match emitStep data sections evt with
  | .ok o => o
  | .error _ => none

/-- Model of `this.eventsOrder.slice(firstEventIndex, lastEventIndex + 1)`
(line 99). -/
def sectionRange (sec : SectionInfo) : List String :=
  (eventsOrder.drop sec.firstEventIndex).take
    (sec.lastEventIndex + 1 - sec.firstEventIndex)

/-- The events of a section's range that are present in the captured
events (`sectionOrder.filter(... data.hasOwnProperty(el) ...)`,
lines 100-102). -/
def presentInRange (data : Store) (sec : SectionInfo) : List String :=
  (sectionRange sec).filter (fun el => (data.lookup el).isSome)

/-- Value `data[a].time`, used by the sort comparator; every name the comparator
sees is present, so the default is never taken. -/
def timeOf (data : Store) (a : String) : Int :=
  ((data.lookup a).map (fun e => e.time)).getD 0

/-- Model of `data[item].sectionIndex = i` (lines 114-119), including the
`if (data[item])` truthiness guard (always true for present keys). -/
def tagSection (data : Store) (k : String) (i : Nat) : Store :=
  data.map (fun p =>
    if p.1 == k then (p.1, { p.2 with sectionIndex := some i }) else p)

/-- One iteration of the section loop of `_matchEventsWithSections`
(lines 95-120): filter the range to present events, sort ascending by
time, read the first and last (lines 108-112 read
`data[sectionEvents[0]].time`, which throws a `TypeError` when the
filtered list is empty), set the section bounds and tag every
present event with the section index. -/
def matchSection (data : Store) (i : Nat) (sec : SectionInfo) :
    Except String (Store × SectionInfo) :=
  let sectionEvents := presentInRange data sec
  match sectionEvents.insertionSort
      (fun a b => timeOf data a ≤ timeOf data b) with
  | [] => .error "TypeError: data[sectionEvents[0]] is undefined"
  | first :: rest =>
    let lastName := (first :: rest).getLast (List.cons_ne_nil _ _)
    .ok (sectionEvents.foldl (fun d item => tagSection d item i) data,
         { sec with startTime := timeOf data first,
                    endTime := timeOf data lastName })

/-- The section loop of `_matchEventsWithSections`, threading the mutated
`timingData` store and the mutated sections array. -/
def matchGo (data : Store) : List SectionInfo → Nat →
    Except String (Store × List SectionInfo)
  | [], _ => .ok (data, [])
  | sec :: rest, i =>
    match matchSection data i sec with
    | .error e => .error e
    | .ok (data2, sec2) =>
      match matchGo data2 rest (i + 1) with
      | .error e => .error e
      | .ok (data3, secs) => .ok (data3, sec2 :: secs)

/-- Model of `_matchEventsWithSections` (lines 90-121). -/
def matchEventsWithSections (data : Store) (sections : List SectionInfo) :
    Except String (Store × List SectionInfo) :=
  matchGo data sections 0

/-- Model of `_init` (lines 167-222), up to the DOM rendering: gather the data,
build the sections, match events with sections when both are available,
then run the emission loop.  When `window.performance` is missing,
`this.timingData` is `undefined` and the loop's first
`this.timingData.hasOwnProperty(evt)` call (line 181) throws a
`TypeError`; the not-supported notice builder `_createNotSupportedInfo`
(lines 79-83) is never invoked anywhere in the source. -/
def profilerInit (hasArrayIndexOf : Bool)
    (perf : Option (List (String × Nat))) :
    Except String (List OutputRecord) :=
  match getData perf with
  | none => .error "TypeError: timingData.hasOwnProperty is undefined"
  | some (evs, _total) =>
    let timingData : Store :=
      evs.map (fun p => (p.1, { time := p.2, sectionIndex := none }))
    let sections := getSections hasArrayIndexOf
    match (if sections.length ≠ 0 then
             matchEventsWithSections timingData sections
           else .ok (timingData, sections)) with
    | .error e => .error e
    | .ok (data2, sections2) => emitGo data2 sections2 eventsOrder

/-! ## Concrete inputs used by the claim witnesses and counterexamples -/

def w5src : List (String × Nat) :=
  [("navigationStart", 1000), ("domLoading", 1120),
   ("loadEventEnd", 1340), ("responseEnd", 1050)]

def w5events : List (String × Int) :=
  [("navigationStart", 0), ("domLoading", 120),
   ("loadEventEnd", 340), ("responseEnd", 50)]

def w6src : List (String × Nat) :=
  [("navigationStart", 1000), ("domLoading", 1300), ("connectEnd", 0)]

def w6events : List (String × Int) :=
  [("navigationStart", 0), ("domLoading", 300)]

def w9src : List (String × Nat) :=
  [("navigationStart", 100), ("domLoading", 50)]

def w7server : SectionInfo :=
  { name := "server", color := [255, 188, 0],
    firstEventIndex := eventsOrder.indexOf "requestStart",
    lastEventIndex := eventsOrder.indexOf "responseEnd",
    startTime := 0, endTime := 0 }

def w7data : Store :=
  [("requestStart", { time := 100 }), ("responseEnd", { time := 250 })]

def w4data : Store :=
  [("domainLookupStart", ⟨10, some 0⟩), ("domainLookupEnd", ⟨40, some 0⟩)]

def w4records : List OutputRecord :=
  [{ color := [224, 84, 63],
     sectionTimeBounds := (0, 0),
     eventTimeBounds := (10, 40),
     label := "domainLookup" }]

def w8data : Store :=
  [("domainLookupStart", ⟨200, some 0⟩), ("domainLookupEnd", ⟨210, some 0⟩),
   ("unloadEventStart", ⟨20, some 2⟩), ("unloadEventEnd", ⟨30, some 2⟩)]

def w8records : List OutputRecord :=
  [{ color := [224, 84, 63],
     sectionTimeBounds := (0, 0),
     eventTimeBounds := (200, 210),
     label := "domainLookup" },
   { color := [16, 173, 171],
     sectionTimeBounds := (0, 0),
     eventTimeBounds := (20, 30),
     label := "unloadEvent" }]

def w10data : Store :=
  [("redirectStart", ⟨5, some 0⟩), ("redirectEnd", ⟨8, some 0⟩),
   ("domainLookupStart", ⟨10, some 0⟩), ("domainLookupEnd", ⟨40, some 0⟩)]

def w10records : List OutputRecord :=
  [{ color := [224, 84, 63],
     sectionTimeBounds := (0, 0),
     eventTimeBounds := (5, 8),
     label := "redirect" },
   { color := [224, 84, 63],
     sectionTimeBounds := (0, 0),
     eventTimeBounds := (5, 8),
     label := "redirect" },
   { color := [224, 84, 63],
     sectionTimeBounds := (0, 0),
     eventTimeBounds := (10, 40),
     label := "domainLookup" }]

def c1src : List (String × Nat) :=
  [("navigationStart", 1000), ("domainLookupStart", 1010),
   ("requestStart", 1100), ("responseEnd", 1250), ("domLoading", 1300)]

def c2src : List (String × Nat) := [("navigationStart", 100)]

/-! ## Generic helper lemmas -/

theorem maxStep_eq_max (a t : Int) : (if a < t then t else a) = max a t := by
  rcases lt_or_le a t with h | h
  · simp [h, max_eq_right h.le]
  · simp [not_lt.2 h, max_eq_left h]

theorem le_foldl_max (l : List Int) (a : Int) : a ≤ l.foldl max a := by
  induction l generalizing a with
  | nil => simp
  | cons t rest ih => exact le_trans (le_max_left a t) (ih (max a t))

theorem mem_le_foldl_max {t : Int} {l : List Int} (ht : t ∈ l) (a : Int) :
    t ≤ l.foldl max a := by
  induction l generalizing a with
  | nil => cases ht
  | cons u rest ih =>
    rcases List.mem_cons.1 ht with rfl | h
    · exact le_trans (le_max_right a t) (le_foldl_max rest (max a t))
    · exact ih h (max a u)

theorem foldl_max_mem (l : List Int) (a : Int) :
    l.foldl max a = a ∨ l.foldl max a ∈ l := by
  induction l generalizing a with
  | nil => exact Or.inl rfl
  | cons u rest ih =>
    rcases ih (max a u) with h | h
    · rcases le_or_lt u a with hu | hu
      · exact Or.inl (by rw [List.foldl_cons, h, max_eq_left hu])
      · exact Or.inr (by rw [List.foldl_cons, h, max_eq_right hu.le]; simp)
    · exact Or.inr (List.mem_cons_of_mem _ h)

theorem lookup_mem {α β} [BEq α] [LawfulBEq α] {l : List (α × β)} {k : α}
    {v : β} (h : l.lookup k = some v) : (k, v) ∈ l := by
  induction l with
  | nil => simp [List.lookup] at h
  | cons p rest ih =>
    obtain ⟨a, b⟩ := p
    by_cases hk : k == a
    · simp only [List.lookup, hk] at h
      cases h
      have hk' : k = a := by simpa using hk
      subst hk'
      exact List.mem_cons_self _ _
    · simp only [List.lookup, hk] at h
      exact List.mem_cons_of_mem _ (ih h)

theorem lookup_eq_none_of_not_mem {α β} [BEq α] [LawfulBEq α]
    {l : List (α × β)} {k : α} (h : k ∉ l.map Prod.fst) :
    l.lookup k = none := by
  induction l with
  | nil => rfl
  | cons p rest ih =>
    obtain ⟨a, b⟩ := p
    simp only [List.map_cons, List.mem_cons, not_or] at h
    have hk : (k == a) = false := by simpa using h.1
    simp only [List.lookup, hk]
    exact ih h.2

theorem sorted_rel_getLast {α} {r : α → α → Prop} :
    ∀ (l : List α) (h : l ≠ []) (_ : List.Sorted r l) (x : α), x ∈ l →
      x = l.getLast h ∨ r x (l.getLast h)
  | [], h, _, _, _ => absurd rfl h
  | [a], _, _, x, hx => by
    simp only [List.mem_singleton] at hx
    exact Or.inl (by simp [hx])
  | a :: b :: t, _, hs, x, hx => by
    rw [List.getLast_cons (List.cons_ne_nil b t)]
    rcases List.mem_cons.1 hx with rfl | hx'
    · exact Or.inr (List.rel_of_sorted_cons hs _ (List.getLast_mem _))
    · exact sorted_rel_getLast (b :: t) (List.cons_ne_nil b t) hs.of_cons x hx'

theorem filter_filterMap_comm {α β} (f : α → Option β) (p : β → Bool)
    (l : List α) :
    (l.filterMap f).filter p = l.filterMap (fun a => (f a).filter p) := by
  induction l with
  | nil => rfl
  | cons a rest ih =>
    cases hf : f a with
    | none => simp [List.filterMap_cons, hf, ih]
    | some b =>
      by_cases hp : p b <;>
        simp [List.filterMap_cons, hf, Option.filter, hp, List.filter_cons, ih]

theorem filterMap_eq_filterMap_filter {α β} (g : α → Option β)
    (q : α → Bool) (l : List α)
    (h : ∀ a ∈ l, q a = false → g a = none) :
    l.filterMap g = (l.filter q).filterMap g := by
  induction l with
  | nil => rfl
  | cons a rest ih =>
    have hrest := ih (fun x hx => h x (List.mem_cons_of_mem _ hx))
    by_cases hq : q a
    · simp [List.filter_cons, hq, List.filterMap_cons, hrest]
    · have := h a (List.mem_cons_self _ _) (by simpa using hq)
      simp [List.filter_cons, hq, List.filterMap_cons, this, hrest]

/-! ## Facts about `_getData` -/

theorem getData_foldl_closed (o : Nat) (src : List (String × Nat))
    (l : List (String × Int)) (t : Int) :
    src.foldl
      (fun acc p =>
        if 0 < p.2 then
          let eventTime : Int := (p.2 : Int) - (o : Int)
          (acc.1 ++ [(p.1, eventTime)],
           if acc.2 < eventTime then eventTime else acc.2)
        else acc)
      (l, t)
    = (l ++ eventsWith o src,
       (eventsWith o src).foldl (fun a p => if a < p.2 then p.2 else a) t) := by
  induction src generalizing l t with
  | nil => simp [eventsWith]
  | cons p rest ih =>
    by_cases hp : 0 < p.2
    · simp only [List.foldl_cons, eventsWith, List.filter_cons,
        decide_eq_true_eq, hp, if_pos hp, List.map_cons, List.foldl_cons]
      rw [ih]
      simp [eventsWith, List.append_assoc]
    · simp only [List.foldl_cons, eventsWith, List.filter_cons,
        decide_eq_true_eq, hp, if_neg hp, List.map_cons]
      rw [ih]
      simp [eventsWith]

/-- Evaluating `_getData` on a supported source produces exactly the retained-events
mapping and its running-maximum total. -/
theorem getData_eq (src : List (String × Nat)) :
    getData (some src) = some (eventsOf src, totalOf src) :=
  congrArg some (getData_foldl_closed (originOf src) src [] 0)

theorem lookup_eventsWith (o : Nat) (src : List (String × Nat)) (k : String)
    (hnodup : (src.map Prod.fst).Nodup) :
    (eventsWith o src).lookup k =
      match src.lookup k with
      | none => none
      | some v => if 0 < v then some ((v : Int) - (o : Int)) else none := by
  induction src with
  | nil => rfl
  | cons p rest ih =>
    obtain ⟨a, b⟩ := p
    simp only [List.map_cons, List.nodup_cons] at hnodup
    have hsub : ∀ x ∈ (eventsWith o rest).map Prod.fst,
        x ∈ rest.map Prod.fst := by
      intro x hx
      simp only [eventsWith, List.map_map, List.mem_map,
        Function.comp] at hx
      obtain ⟨q, hq, rfl⟩ := hx
      exact List.mem_map.2 ⟨q, (List.mem_filter.1 hq).1, rfl⟩
    by_cases hk : k == a
    · have hk' : k = a := by simpa using hk
      subst hk'
      by_cases hb : 0 < b
      · simp only [eventsWith, List.filter_cons, decide_eq_true_eq, hb,
          if_pos hb, List.map_cons, List.lookup, beq_self_eq_true]
        simp [hb]
      · have habs : (eventsWith o rest).lookup k = none :=
          lookup_eq_none_of_not_mem (fun hmem => hnodup.1 (hsub k hmem))
        simp only [eventsWith, List.filter_cons, decide_eq_true_eq, hb,
          if_neg hb, List.lookup, beq_self_eq_true] at habs ⊢
        simp [habs, hb]
    · have ihr := ih hnodup.2
      by_cases hb : 0 < b
      · simp only [eventsWith, List.filter_cons, decide_eq_true_eq, hb,
          if_pos hb, List.map_cons, List.lookup, hk] at ihr ⊢
        exact ihr
      · simp only [eventsWith, List.filter_cons, decide_eq_true_eq, hb,
          if_neg hb, List.lookup, hk] at ihr ⊢
        exact ihr

/-- Claim C5: on a supported timing source with at least one retained
field, `totalTime` as computed by `_getData` is the maximum of the
offsets `rawValue - origin` over the retained fields: it is one of the
retained offsets and every retained offset is at most it. -/
theorem totalTime_is_max_of_retained (src : List (String × Nat))
    (events : List (String × Int)) (total : Int)
    (h : getData (some src) = some (events, total)) (hne : events ≠ []) :
    total ∈ events.map (fun p => p.2) ∧
      ∀ t ∈ events.map (fun p => p.2), t ≤ total := by
  rw [getData_eq src] at h
  injection h with h'
  have hev : eventsOf src = events := congrArg Prod.fst h'
  have htot : totalOf src = total := congrArg Prod.snd h'
  subst hev
  subst htot
  have hstep : (fun (a : Int) (p : String × Int) =>
      if a < p.2 then p.2 else a) = fun a p => max a p.2 :=
    funext fun a => funext fun p => maxStep_eq_max a p.2
  have hfold : totalOf src =
      ((eventsOf src).map (fun p => p.2)).foldl max 0 := by
    show (eventsOf src).foldl _ 0 = _
    rw [hstep, List.foldl_map]
  have hle : ∀ t ∈ (eventsOf src).map (fun p => p.2), t ≤ totalOf src := by
    intro t ht
    rw [hfold]
    exact mem_le_foldl_max ht 0
  refine ⟨?_, hle⟩
  have hpos : originOf src = 0 → ∀ p ∈ eventsOf src, 0 < p.2 := by
    intro ho p hp
    simp only [eventsOf, eventsWith, List.mem_map] at hp
    obtain ⟨q, hq, rfl⟩ := hp
    have h2 : 0 < q.2 := by simpa using (List.mem_filter.1 hq).2
    simp only [ho]
    omega
  rcases foldl_max_mem ((eventsOf src).map (fun p => p.2)) 0 with h0 | hmem
  · -- the fold came back with its initial value `0`
    rw [hfold, h0]
    obtain ⟨p0, hp0⟩ := List.exists_mem_of_ne_nil _ hne
    have hp0le : p0.2 ≤ (0 : Int) := by
      have := hle p0.2 (List.mem_map.2 ⟨p0, hp0, rfl⟩)
      rwa [hfold, h0] at this
    cases hnav : src.lookup "navigationStart" with
    | none =>
      have horig : originOf src = 0 := by simp [originOf, hnav]
      exact absurd hp0le (not_le.2 (hpos horig p0 hp0))
    | some v =>
      by_cases hv : 0 < v
      · have hmemsrc : ("navigationStart", v) ∈ src := lookup_mem hnav
        have horig : originOf src = v := by simp [originOf, hnav]
        have hmemev : ("navigationStart",
            (v : Int) - (originOf src : Int)) ∈ eventsOf src := by
          simp only [eventsOf, eventsWith, List.mem_map]
          exact ⟨("navigationStart", v),
            List.mem_filter.2 ⟨hmemsrc, by simpa using hv⟩, rfl⟩
        refine List.mem_map.2 ⟨_, hmemev, ?_⟩
        rw [horig]
        simp
      · have hv0 : v = 0 := by omega
        have horig : originOf src = 0 := by simp [originOf, hnav, hv0]
        exact absurd hp0le (not_le.2 (hpos horig p0 hp0))
  · rwa [hfold]

/-- Witness for claim C5 at the spec's example offsets {0, 120, 340, 50}:
`totalTime = 340`. -/
theorem totalTime_is_max_witness :
    (340 : Int) ∈ w5events.map (fun p => p.2) ∧
      ∀ t ∈ w5events.map (fun p => p.2), t ≤ (340 : Int) :=
  totalTime_is_max_of_retained w5src w5events 340 (by decide) (by decide)

/-- Claim C6: on a supported source with distinct field names where
`navigationStart = T0` and field `X = T0 + d` with `d > 0`, the computed
events mapping contains `X` with `time = d`; and every field whose raw
value is `0` or missing is absent from the computed events mapping. -/
theorem offset_and_dropped_fields (src : List (String × Nat)) (X : String)
    (T0 d : Nat) (events : List (String × Int)) (total : Int)
    (hnodup : (src.map Prod.fst).Nodup)
    (hnav : src.lookup "navigationStart" = some T0)
    (hX : src.lookup X = some (T0 + d)) (hd : 0 < d)
    (h : getData (some src) = some (events, total)) :
    events.lookup X = some (d : Int) ∧
      ∀ k, src.lookup k = some 0 ∨ src.lookup k = none →
        events.lookup k = none := by
  rw [getData_eq src] at h
  injection h with h'
  have hev : eventsOf src = events := congrArg Prod.fst h'
  subst hev
  have horig : originOf src = T0 := by simp [originOf, hnav]
  constructor
  · rw [eventsOf, lookup_eventsWith _ _ _ hnodup, hX]
    have hpos : 0 < T0 + d := by omega
    show (if 0 < T0 + d then
        some (((T0 + d : Nat) : Int) - (originOf src : Int)) else none)
      = some (d : Int)
    rw [if_pos hpos, horig]
    congr 1
    push_cast
    ring
  · intro k hk
    rw [eventsOf, lookup_eventsWith _ _ _ hnodup]
    rcases hk with hk | hk <;> simp [hk]

/-- Witness for claim C6: `navigationStart = 1000`,
`domLoading = 1300 = 1000 + 300` gives `time = 300`, and the zero-valued
`connectEnd` is absent. -/
theorem offset_and_dropped_fields_witness :
    w6events.lookup "domLoading" = some (300 : Int) ∧
      ∀ k, w6src.lookup k = some 0 ∨ w6src.lookup k = none →
        w6events.lookup k = none :=
  offset_and_dropped_fields w6src "domLoading" 1000 300 w6events 300
    (by decide) (by decide) (by decide) (by decide) (by decide)

/-- Claim C9 counterexample: with `navigationStart = 100` and
`domLoading = 50` (a positive raw value below the origin), `_getData`
retains `domLoading` with the negative offset `-50`. -/
theorem retained_time_nonneg_counterexample :
    ∃ events total, getData (some w9src) = some (events, total) ∧
      ("domLoading", (-50 : Int)) ∈ events ∧ (-50 : Int) < 0 :=
  ⟨[("navigationStart", 0), ("domLoading", -50)], 0,
    by decide, by decide, by decide⟩

/-- Claim C9 amended: on a supported source in which every raw value is
either `0` or at least the origin (`navigationStart`) value — as is the
case for real Navigation Timing data — every retained event has a
non-negative time offset. -/
theorem retained_time_nonneg_of_wellformed (src : List (String × Nat))
    (events : List (String × Int)) (total : Int)
    (hwf : ∀ p ∈ src, p.2 = 0 ∨ originOf src ≤ p.2)
    (h : getData (some src) = some (events, total)) :
    ∀ p ∈ events, 0 ≤ p.2 := by
  rw [getData_eq src] at h
  injection h with h'
  have hev : eventsOf src = events := congrArg Prod.fst h'
  subst hev
  intro p hp
  simp only [eventsOf, eventsWith, List.mem_map] at hp
  obtain ⟨q, hq, rfl⟩ := hp
  obtain ⟨hqs, hqpos⟩ := List.mem_filter.1 hq
  rcases hwf q hqs with h0 | hge
  · simp [h0] at hqpos
  · have hc : (originOf src : Int) ≤ (q.2 : Int) := by exact_mod_cast hge
    simp only []
    omega

/-- Witness for the amended claim C9 at `navigationStart = 100`,
`domLoading = 150`: the retained `domLoading` event has offset `50 ≥ 0`. -/
theorem retained_time_nonneg_witness :
    getData (some [("navigationStart", 100), ("domLoading", 150)]) =
      some ([("navigationStart", 0), ("domLoading", 50)], 50) ∧
      (0 : Int) ≤ ((("domLoading" : String), (50 : Int))).2 :=
  ⟨by decide,
    retained_time_nonneg_of_wellformed
      [("navigationStart", 100), ("domLoading", 150)]
      [("navigationStart", 0), ("domLoading", 50)] 50
      (by decide) (by decide) ("domLoading", 50) (by decide)⟩

/-! ## Facts about `_matchEventsWithSections` -/

/-- Claim C7: for any phase whose catalog range contains at least one
captured event, the section loop succeeds and sets the phase's
`startTime` to the minimum `time` among the present events of the range
and its `endTime` to the maximum. -/
theorem phase_bounds_minmax (data : Store) (i : Nat) (sec : SectionInfo)
    (hne : presentInRange data sec ≠ []) :
    ∃ data2 sec2, matchSection data i sec = .ok (data2, sec2) ∧
      sec2.startTime ∈ (presentInRange data sec).map (timeOf data) ∧
      (∀ t ∈ (presentInRange data sec).map (timeOf data),
        sec2.startTime ≤ t) ∧
      sec2.endTime ∈ (presentInRange data sec).map (timeOf data) ∧
      (∀ t ∈ (presentInRange data sec).map (timeOf data),
        t ≤ sec2.endTime) := by
  haveI htot : IsTotal String
      (fun a b => timeOf data a ≤ timeOf data b) :=
    ⟨fun a b => le_total _ _⟩
  haveI htr : IsTrans String
      (fun a b => timeOf data a ≤ timeOf data b) :=
    ⟨fun _ _ _ hab hbc => le_trans hab hbc⟩
  cases hs : (presentInRange data sec).insertionSort
      (fun a b => timeOf data a ≤ timeOf data b) with
  | nil =>
    have hlen := List.length_insertionSort
      (fun a b => timeOf data a ≤ timeOf data b) (presentInRange data sec)
    rw [hs] at hlen
    exact absurd (List.eq_nil_of_length_eq_zero hlen.symm) hne
  | cons first rest =>
    have hsorted : List.Sorted (fun a b => timeOf data a ≤ timeOf data b)
        (first :: rest) := by
      rw [← hs]
      exact List.sorted_insertionSort _ _
    have hperm : (first :: rest).Perm (presentInRange data sec) := by
      rw [← hs]
      exact List.perm_insertionSort _ _
    refine ⟨(presentInRange data sec).foldl
        (fun d item => tagSection d item i) data,
      { sec with startTime := timeOf data first,
                 endTime := timeOf data
                   ((first :: rest).getLast (List.cons_ne_nil _ _)) },
      ?_, ?_, ?_, ?_, ?_⟩
    · simp only [matchSection, hs]
    · exact List.mem_map.2
        ⟨first, hperm.subset (List.mem_cons_self _ _), rfl⟩
    · intro t ht
      obtain ⟨x, hx, rfl⟩ := List.mem_map.1 ht
      rcases List.mem_cons.1 (hperm.mem_iff.2 hx) with rfl | hx'
      · exact le_refl _
      · exact List.rel_of_sorted_cons hsorted x hx'
    · exact List.mem_map.2
        ⟨(first :: rest).getLast (List.cons_ne_nil _ _),
          hperm.subset (List.getLast_mem _), rfl⟩
    · intro t ht
      obtain ⟨x, hx, rfl⟩ := List.mem_map.1 ht
      rcases sorted_rel_getLast (first :: rest) (List.cons_ne_nil _ _)
          hsorted x (hperm.mem_iff.2 hx) with heq | hrel
      · exact le_of_eq (congrArg (timeOf data) heq)
      · exact hrel

/-- Witness for claim C7 at the spec's example: only `requestStart` at
offset 100 and `responseEnd` at offset 250 present in the `server`
range. -/
theorem phase_bounds_minmax_witness :
    presentInRange w7data w7server ≠ [] ∧
      ∃ data2 sec2, matchSection w7data 1 w7server = .ok (data2, sec2) ∧
        sec2.startTime ∈ (presentInRange w7data w7server).map
          (timeOf w7data) ∧
        (∀ t ∈ (presentInRange w7data w7server).map (timeOf w7data),
          sec2.startTime ≤ t) ∧
        sec2.endTime ∈ (presentInRange w7data w7server).map
          (timeOf w7data) ∧
        (∀ t ∈ (presentInRange w7data w7server).map (timeOf w7data),
          t ≤ sec2.endTime) :=
  ⟨by decide, phase_bounds_minmax w7data 1 w7server (by decide)⟩

/-! ## Facts about the emission loop -/

theorem emitOne_of_ok {data : Store} {sections : List SectionInfo}
    {evt : String} {o : Option OutputRecord}
    (h : emitStep data sections evt = .ok o) :
    emitOne data sections evt = o := by
  unfold emitOne
  rw [h]

theorem emitGo_ok_eq {data : Store} {sections : List SectionInfo} :
    ∀ {l : List String} {rs : List OutputRecord},
      emitGo data sections l = .ok rs →
      rs = l.filterMap (emitOne data sections)
  | [], rs, h => by
    simp only [emitGo] at h
    injection h with h2
    subst h2
    rfl
  | evt :: rest, rs, h => by
    simp only [emitGo] at h
    cases hstep : emitStep data sections evt with
    | error e => rw [hstep] at h; exact Except.noConfusion h
    | ok o =>
      rw [hstep] at h
      cases o with
      | none =>
        have ih := emitGo_ok_eq (l := rest) h
        rw [List.filterMap_cons, emitOne_of_ok hstep]
        exact ih
      | some r =>
        cases hrest : emitGo data sections rest with
        | error e => rw [hrest] at h; exact Except.noConfusion h
        | ok rs2 =>
          rw [hrest] at h
          injection h with h2
          subst h2
          have ih := emitGo_ok_eq (l := rest) hrest
          rw [List.filterMap_cons, emitOne_of_ok hstep]
          exact congrArg _ ih

theorem emitGo_ok_step {data : Store} {sections : List SectionInfo} :
    ∀ {l : List String} {rs : List OutputRecord},
      emitGo data sections l = .ok rs → ∀ {evt : String}, evt ∈ l →
      ∃ o, emitStep data sections evt = .ok o
  | [], _, _, _, hmem => absurd hmem (List.not_mem_nil _)
  | evt0 :: rest, rs, h, evt, hmem => by
    simp only [emitGo] at h
    cases hstep : emitStep data sections evt0 with
    | error e => rw [hstep] at h; exact Except.noConfusion h
    | ok o =>
      rw [hstep] at h
      rcases List.mem_cons.1 hmem with rfl | hmem'
      · exact ⟨o, hstep⟩
      · cases o with
        | none => exact emitGo_ok_step (l := rest) h hmem'
        | some r =>
          cases hrest : emitGo data sections rest with
          | error e => rw [hrest] at h; exact Except.noConfusion h
          | ok rs2 => exact emitGo_ok_step (l := rest) hrest hmem'

/-- Inversion of a successful, record-emitting iteration. -/
theorem emitStep_ok_some {data : Store} {sections : List SectionInfo}
    {evt : String} {r : OutputRecord}
    (h : emitStep data sections evt = .ok (some r)) :
    ∃ item startIndex endItem si s,
      data.lookup evt = some item ∧
      strIdxOf evt "Start" = some startIndex ∧
      eventsOrder.contains (takeChars evt startIndex ++ "End") = true ∧
      data.lookup (takeChars evt startIndex ++ "End") = some endItem ∧
      item.sectionIndex = some si ∧
      sections[si]? = some s ∧
      r = { color := s.color,
            sectionTimeBounds := (s.startTime, s.endTime),
            eventTimeBounds := (item.time, endItem.time),
            label := takeChars evt startIndex } := by
  unfold emitStep at h
  cases hl : data.lookup evt with
  | none =>
    simp only [hl] at h
    exact Option.noConfusion (Except.ok.inj h)
  | some item =>
    simp only [hl] at h
    cases hi : strIdxOf evt "Start" with
    | none =>
      simp only [hi] at h
      exact Option.noConfusion (Except.ok.inj h)
    | some startIndex =>
      simp only [hi] at h
      by_cases hc : eventsOrder.contains (takeChars evt startIndex ++ "End")
      · rw [if_pos hc] at h
        cases he : data.lookup (takeChars evt startIndex ++ "End") with
        | none =>
          simp only [he] at h
          exact Except.noConfusion h
        | some endItem =>
          simp only [he] at h
          cases hsi : item.sectionIndex with
          | none =>
            simp only [hsi] at h
            exact Except.noConfusion h
          | some si =>
            simp only [hsi] at h
            cases hsec : sections[si]? with
            | none =>
              simp only [hsec] at h
              exact Except.noConfusion h
            | some s =>
              simp only [hsec] at h
              injection h with h2
              injection h2 with h3
              exact ⟨item, startIndex, endItem, si, s, rfl, rfl, hc, he,
                hsi, hsec, h3.symm⟩
      · rw [if_neg hc] at h
        exact Option.noConfusion (Except.ok.inj h)

/-- Inversion of a successful iteration on a present, pairable entry. -/
theorem emitStep_ok_shape {data : Store} {sections : List SectionInfo}
    {evt : String} {o : Option OutputRecord} {item : EventData}
    {startIndex : Nat}
    (h : emitStep data sections evt = .ok o)
    (hl : data.lookup evt = some item)
    (hi : strIdxOf evt "Start" = some startIndex)
    (hc : eventsOrder.contains (takeChars evt startIndex ++ "End") = true) :
    ∃ endItem si s,
      data.lookup (takeChars evt startIndex ++ "End") = some endItem ∧
      item.sectionIndex = some si ∧
      sections[si]? = some s ∧
      o = some { color := s.color,
                 sectionTimeBounds := (s.startTime, s.endTime),
                 eventTimeBounds := (item.time, endItem.time),
                 label := takeChars evt startIndex } := by
  unfold emitStep at h
  simp only [hl, hi] at h
  rw [if_pos hc] at h
  cases he : data.lookup (takeChars evt startIndex ++ "End") with
  | none =>
    simp only [he] at h
    exact Except.noConfusion h
  | some endItem =>
    simp only [he] at h
    cases hsi : item.sectionIndex with
    | none =>
      simp only [hsi] at h
      exact Except.noConfusion h
    | some si =>
      simp only [hsi] at h
      cases hsec : sections[si]? with
      | none =>
        simp only [hsec] at h
        exact Except.noConfusion h
      | some s =>
        simp only [hsec] at h
        injection h with h2
        exact ⟨endItem, si, s, rfl, rfl, hsec, h2.symm⟩

/-- An emitted record's label is the base name of the catalog entry that
emitted it. -/
theorem emitOne_label {data : Store} {sections : List SectionInfo}
    {evt : String} {r : OutputRecord}
    (h : emitOne data sections evt = some r) :
    baseNameOf evt = some r.label := by
  unfold emitOne at h
  cases hstep : emitStep data sections evt with
  | error e => rw [hstep] at h; exact Option.noConfusion h
  | ok o =>
    rw [hstep] at h
    subst h
    obtain ⟨item, si0, endItem, si, s, _, hi, _, _, _, _, hr⟩ :=
      emitStep_ok_some hstep
    rw [baseNameOf, hi, hr]
    rfl

/-- On a successful run, the records carrying a given label are exactly
those emitted by the catalog entries whose base name is that label. -/
theorem records_filter_label {data : Store} {sections : List SectionInfo}
    {rs : List OutputRecord} (b : String)
    (hok : emitGo data sections eventsOrder = .ok rs) :
    rs.filter (fun r => r.label == b) =
      (eventsOrder.filter (fun evt => baseNameOf evt == some b)).filterMap
        (fun evt => (emitOne data sections evt).filter
          (fun r => r.label == b)) := by
  rw [emitGo_ok_eq hok, filter_filterMap_comm]
  refine filterMap_eq_filterMap_filter _ _ _ ?_
  intro a _ hq
  cases hone : emitOne data sections a with
  | none => rfl
  | some r =>
    have hlab := emitOne_label hone
    rw [hlab] at hq
    have hfalse : (r.label == b) = false := by simpa using hq
    simp [Option.filter, hfalse]

/-- A base name whose `Start` entry occurs exactly once in the catalog and
whose `End` counterpart is captured yields exactly one record. -/
theorem single_pair_record (data : Store) (sections : List SectionInfo)
    (rs : List OutputRecord) (b : String) (n : Nat)
    {item endItem : EventData}
    (hok : emitGo data sections eventsOrder = .ok rs)
    (hfil : eventsOrder.filter (fun evt => baseNameOf evt == some b) =
      [b ++ "Start"])
    (hmem : (b ++ "Start") ∈ eventsOrder)
    (hi : strIdxOf (b ++ "Start") "Start" = some n)
    (htake : takeChars (b ++ "Start") n = b)
    (hcont : eventsOrder.contains (b ++ "End") = true)
    (hS : data.lookup (b ++ "Start") = some item)
    (hE : data.lookup (b ++ "End") = some endItem) :
    ∃ r, rs.filter (fun x => x.label == b) = [r] ∧ r.label = b ∧
      r.eventTimeBounds = (item.time, endItem.time) := by
  obtain ⟨o, ho⟩ := emitGo_ok_step hok hmem
  obtain ⟨endItem', si, s, he', hsi, hsec, hoeq⟩ :=
    emitStep_ok_shape ho hS hi (by rw [htake]; exact hcont)
  rw [htake] at he' hoeq
  rw [hE] at he'
  injection he' with hee
  subst hee
  have hone : emitOne data sections (b ++ "Start") =
      some { color := s.color,
             sectionTimeBounds := (s.startTime, s.endTime),
             eventTimeBounds := (item.time, endItem.time),
             label := b } :=
    (emitOne_of_ok ho).trans hoeq
  refine ⟨{ color := s.color,
            sectionTimeBounds := (s.startTime, s.endTime),
            eventTimeBounds := (item.time, endItem.time),
            label := b }, ?_, rfl, rfl⟩
  rw [records_filter_label b hok, hfil]
  simp [hone, Option.filter, List.filterMap_cons, List.filterMap_nil]

/-- Claim C4: on a run of the emission loop that completes, capturing both
`domainLookupStart` at offset 10 and `domainLookupEnd` at offset 40 yields
exactly one record labeled `domainLookup` with interval bounds (10, 40),
and no record labeled `domainLookupEnd` is emitted. -/
theorem pairing_unique_domainLookup (data : Store)
    (sections : List SectionInfo) (rs : List OutputRecord)
    (item endItem : EventData)
    (hS : data.lookup "domainLookupStart" = some item)
    (ht : item.time = 10)
    (hE : data.lookup "domainLookupEnd" = some endItem)
    (hte : endItem.time = 40)
    (hok : emitGo data sections eventsOrder = .ok rs) :
    (∃ r, rs.filter (fun x => x.label == "domainLookup") = [r] ∧
        r.label = "domainLookup" ∧
        r.eventTimeBounds = ((10 : Int), (40 : Int))) ∧
    rs.filter (fun x => x.label == "domainLookupEnd") = [] := by
  constructor
  · obtain ⟨r, h1, h2, h3⟩ :=
      single_pair_record data sections rs "domainLookup" 12 hok (by decide)
        (by decide) (by decide) (by decide) (by decide) hS hE
    exact ⟨r, h1, h2, by rw [h3, ht, hte]⟩
  · rw [records_filter_label "domainLookupEnd" hok,
      show eventsOrder.filter
          (fun evt => baseNameOf evt == some "domainLookupEnd") = []
        from by decide]
    rfl

/-- Witness for claim C4 on a concrete captured set where the emission
loop completes. -/
theorem pairing_unique_domainLookup_witness :
    (∃ r, w4records.filter (fun x => x.label == "domainLookup") = [r] ∧
        r.label = "domainLookup" ∧
        r.eventTimeBounds = ((10 : Int), (40 : Int))) ∧
    w4records.filter (fun x => x.label == "domainLookupEnd") = [] :=
  pairing_unique_domainLookup w4data (getSections true) w4records
    ⟨10, some 0⟩ ⟨40, some 0⟩ (by decide) rfl (by decide) rfl (by decide)

/-- Claim C8: on a successful run the emitted records are exactly the
catalog-ordered `filterMap` of the per-entry emission function, so they
appear in Event Catalog order rather than in chronological order. -/
theorem records_in_catalog_order (data : Store)
    (sections : List SectionInfo) (rs : List OutputRecord)
    (hok : emitGo data sections eventsOrder = .ok rs) :
    rs = eventsOrder.filterMap (emitOne data sections) :=
  emitGo_ok_eq hok

/-- Witness for claim C8: `unloadEvent` occurs chronologically first
(offsets 20-30 against 200-210) yet its record comes second, in catalog
order. -/
theorem records_in_catalog_order_witness :
    w8records = eventsOrder.filterMap (emitOne w8data (getSections true)) :=
  records_in_catalog_order w8data (getSections true) w8records (by decide)

/-- Claim C10: the catalog lists `redirectStart` twice and the emission
loop does not deduplicate, so a captured `redirectStart`/`redirectEnd`
pair yields two identical `redirect` records, while every other
well-formed pair (whose `Start` entry occurs once) yields exactly one
record. -/
theorem duplicate_redirect_records (data : Store)
    (sections : List SectionInfo) (rs : List OutputRecord)
    (item endItem : EventData)
    (hS : data.lookup "redirectStart" = some item)
    (hE : data.lookup "redirectEnd" = some endItem)
    (hok : emitGo data sections eventsOrder = .ok rs) :
    (∃ r, rs.filter (fun x => x.label == "redirect") = [r, r] ∧
        r.label = "redirect" ∧
        r.eventTimeBounds = (item.time, endItem.time)) ∧
    ∀ b ∈ [("domainLookup" : String), "connect", "response", "unloadEvent",
        "domContentLoadedEvent", "loadEvent"],
      ∀ it et, data.lookup (b ++ "Start") = some it →
        data.lookup (b ++ "End") = some et →
        ∃ r, rs.filter (fun x => x.label == b) = [r] ∧ r.label = b ∧
          r.eventTimeBounds = (it.time, et.time) := by
  constructor
  · obtain ⟨o, ho⟩ := emitGo_ok_step hok
      (show "redirectStart" ∈ eventsOrder from by decide)
    obtain ⟨endItem', si, s, he', hsi, hsec, hoeq⟩ :=
      emitStep_ok_shape ho hS
        (show strIdxOf "redirectStart" "Start" = some 8 from by decide)
        (show eventsOrder.contains (takeChars "redirectStart" 8 ++ "End")
            = true from by decide)
    have htake : takeChars "redirectStart" 8 = "redirect" := by decide
    rw [htake] at he' hoeq
    rw [show ("redirect" ++ "End" : String) = "redirectEnd" from rfl,
      hE] at he'
    injection he' with hee
    subst hee
    have hone : emitOne data sections "redirectStart" =
        some { color := s.color,
               sectionTimeBounds := (s.startTime, s.endTime),
               eventTimeBounds := (item.time, endItem.time),
               label := "redirect" } :=
      (emitOne_of_ok ho).trans hoeq
    refine ⟨{ color := s.color,
              sectionTimeBounds := (s.startTime, s.endTime),
              eventTimeBounds := (item.time, endItem.time),
              label := "redirect" }, ?_, rfl, rfl⟩
    rw [records_filter_label "redirect" hok,
      show eventsOrder.filter
          (fun evt => baseNameOf evt == some "redirect")
          = ["redirectStart", "redirectStart"] from by decide]
    simp [hone, Option.filter, List.filterMap_cons, List.filterMap_nil]
  · intro b hb it et hSb hEb
    simp only [List.mem_cons, List.not_mem_nil, or_false] at hb
    rcases hb with rfl | rfl | rfl | rfl | rfl | rfl
    · exact single_pair_record data sections rs "domainLookup" 12 hok
        (by decide) (by decide) (by decide) (by decide) (by decide) hSb hEb
    · exact single_pair_record data sections rs "connect" 7 hok
        (by decide) (by decide) (by decide) (by decide) (by decide) hSb hEb
    · exact single_pair_record data sections rs "response" 8 hok
        (by decide) (by decide) (by decide) (by decide) (by decide) hSb hEb
    · exact single_pair_record data sections rs "unloadEvent" 11 hok
        (by decide) (by decide) (by decide) (by decide) (by decide) hSb hEb
    · exact single_pair_record data sections rs "domContentLoadedEvent" 21
        hok (by decide) (by decide) (by decide) (by decide) (by decide)
        hSb hEb
    · exact single_pair_record data sections rs "loadEvent" 9 hok
        (by decide) (by decide) (by decide) (by decide) (by decide) hSb hEb

/-- Witness for claim C10 on a concrete captured set: the `redirect` pair
at offsets (5, 8) produces two identical records. -/
theorem duplicate_redirect_records_witness :
    (∃ r, w10records.filter (fun x => x.label == "redirect") = [r, r] ∧
        r.label = "redirect" ∧
        r.eventTimeBounds = ((5 : Int), (8 : Int))) ∧
    ∀ b ∈ [("domainLookup" : String), "connect", "response", "unloadEvent",
        "domContentLoadedEvent", "loadEvent"],
      ∀ it et, w10data.lookup (b ++ "Start") = some it →
        w10data.lookup (b ++ "End") = some et →
        ∃ r, w10records.filter (fun x => x.label == b) = [r] ∧ r.label = b ∧
          r.eventTimeBounds = (it.time, et.time) :=
  duplicate_redirect_records w10data (getSections true) w10records
    ⟨5, some 0⟩ ⟨8, some 0⟩ (by decide) (by decide) (by decide)

/-! ## Concrete runs demonstrating the crash modes of `_init` -/

/-- Claim C1 (code bug): with `domainLookupStart` captured at offset 10
but `domainLookupEnd` absent, `_init` does not drop the pair silently:
line 197 reads `.time` of `undefined` and a `TypeError` propagates to the
caller instead. -/
theorem unpaired_start_throws :
    profilerInit true (some c1src) =
      .error "TypeError: timingData[eventName+End] is undefined" := by
  decide

/-- Claim C2 (code bug): when no event in the `server` phase's range is
present, the bounds do not remain at their initialized 0: line 111 reads
`.time` of `data[undefined]` and a `TypeError` propagates to the
caller. -/
theorem empty_phase_throws :
    profilerInit true (some c2src) =
      .error "TypeError: data[sectionEvents[0]] is undefined" := by
  decide

/-- Claim C3 (code bug): without a timing source, `_getData` does return
nothing, but `_init` then throws a `TypeError` at line 181
(`this.timingData.hasOwnProperty`) rather than degrading to the
not-supported notice; `_createNotSupportedInfo` is never invoked in the
source. -/
theorem unsupported_env_throws :
    getData none = none ∧
      profilerInit true none =
        .error "TypeError: timingData.hasOwnProperty is undefined" :=
  ⟨rfl, rfl⟩

end Profiler
